import Mathlib

/-
Verification of assistant_api/vector_store.py (RAG-System-Agent).

The chunking pipeline (_chunk_text, _split_long_paragraph, _get_overlap_text)
is embedded over List Char; a Python str value is a list of characters.
Python's str.strip / \s whitespace class is modelled by Char.isWhitespace
(space, tab, CR, LF), which agrees with Python on every character appearing
in this development.  The Qdrant / OpenAI collaborators of load_documents and
get_collection_stats are abstracted as explicit parameters (file content,
embedding oracle, identifier supply, collection point list).
-/

/-- Python str modelled as a list of characters. -/
abbrev Str := List Char

/-- Python str.lstrip(): drop leading whitespace. -/
def lstrip (s : Str) : Str := s.dropWhile Char.isWhitespace

/-- Python str.rstrip(): drop trailing whitespace. -/
def rstrip (s : Str) : Str := (s.reverse.dropWhile Char.isWhitespace).reverse

/-- Python str.strip(): drop whitespace at both ends. -/
def pyStrip (s : Str) : Str := lstrip (rstrip s)

/-- Python s.find(pat): index of the first occurrence of the (contiguous)
pattern, none when absent (Python returns -1). -/
def findSub : Str → Str → Option Nat
  | [], pat => if pat.isEmpty then some 0 else none
  | c :: t, pat =>
    if pat.isPrefixOf (c :: t) then some 0
    else (findSub t pat).map (fun n => n + 1)

/-- The sentence_starts list of _get_overlap_text, in source order. -/
def sentenceStarts : List Str := [['.', ' '], ['!', ' '], ['?', ' '], ['\n']]

/-- The best_start loop of _get_overlap_text: for each delimiter in order,
find its first occurrence pos; when pos is greater than the current
best_start, set best_start to pos plus the delimiter length. -/
def bestBoundary (cand : Str) : Nat :=
  sentenceStarts.foldl
    (fun best d =>
      match findSub cand d with
      | some p => if best < p then p + d.length else best
      | none => best)
    0

/-- Python text[-ov:] (negative-index slice): the whole text when ov = 0,
otherwise the trailing min(ov, len) characters. -/
def pyWindow (text : Str) (ov : Nat) : Str :=
  if ov = 0 then text else text.drop (text.length - ov)

/-- _get_overlap_text(text, overlap_size), translated from the source. -/
def getOverlapText (text : Str) (ov : Nat) : Str :=
  if text.length ≤ ov then text
  else if 0 < bestBoundary (pyWindow text ov) then
    pyStrip ((pyWindow text ov).drop (bestBoundary (pyWindow text ov)))
  else pyStrip (pyWindow text ov)

/-- The candidate window exactly as claim C3 words it: the trailing
overlap_size characters of the text. -/
def claimWindow (text : Str) (ov : Nat) : Str := text.drop (text.length - ov)

/-- The Overlap Extractor as described by claim C3 / spec section 4.4:
trailing overlap_size characters as window; each delimiter match updates the
furthest-found boundary only if the match position exceeds the current best;
return the substring after the boundary, trimmed, or the trimmed raw window
when no boundary was recorded; whole text when len(text) <= overlap_size. -/
def getOverlapClaim (text : Str) (ov : Nat) : Str :=
  if text.length ≤ ov then text
  else if 0 < bestBoundary (claimWindow text ov) then
    pyStrip ((claimWindow text ov).drop (bestBoundary (claimWindow text ov)))
  else pyStrip (claimWindow text ov)

/-- Prepend a character to the first piece of a split (helper for the
string-splitting scanners). -/
def consHead (c : Char) : List Str → List Str
  | [] => [[c]]
  | h :: t => (c :: h) :: t

/-- Python text.split('\n\n'): split on non-overlapping occurrences of two
consecutive newlines, scanned left to right. -/
def splitOn2NL : Str → List Str
  | [] => [[]]
  | '\n' :: '\n' :: rest => [] :: splitOn2NL rest
  | c :: rest => consHead c (splitOn2NL rest)

/-- The character class [.!?] of the sentence-splitting regex. -/
def isPunct (c : Char) : Bool := c == '.' || c == '!' || c == '?'

/-- Python re.split with the capturing pattern of runs of [.!?] followed by
runs of whitespace, applied in _split_long_paragraph: returns the pieces with
the captured delimiter runs interleaved (text, delim, text, ..., text). -/
def reSplitSent (s : Str) : List Str :=
  match s with
  | [] => [[]]
  | c :: rest =>
    if isPunct c then
      if (rest.dropWhile isPunct).takeWhile Char.isWhitespace = [] then
        consHead c (reSplitSent rest)
      else
        [] ::
          (c :: (rest.takeWhile isPunct ++
            (rest.dropWhile isPunct).takeWhile Char.isWhitespace)) ::
          reSplitSent ((rest.dropWhile isPunct).dropWhile Char.isWhitespace)
    else consHead c (reSplitSent rest)
termination_by s.length
decreasing_by
  · simp only [List.length_cons]; omega
  · simp only [List.length_cons]
    have h1 : ((rest.dropWhile isPunct).dropWhile Char.isWhitespace).length ≤
        (rest.dropWhile isPunct).length :=
      (List.dropWhile_sublist Char.isWhitespace).length_le
    have h2 : (rest.dropWhile isPunct).length ≤ rest.length :=
      (List.dropWhile_sublist isPunct).length_le
    omega
  · simp only [List.length_cons]; omega

/-- The pairing loop of _split_long_paragraph: re-attach each captured
delimiter run to the preceding text piece; a trailing piece without a
delimiter is kept as a final sentence. -/
def pairUp : List Str → List Str
  | [] => []
  | [x] => [x]
  | x :: y :: rest => (x ++ y) :: pairUp rest

/-- Mutable locals (chunks, current_chunk) of the two packing loops. -/
structure ChunkState where
  chunks : List Str
  current : Str

/-- One iteration of the sentence-packing loop of _split_long_paragraph. -/
def stepSent (cs ov : Nat) (st : ChunkState) (sent : Str) : ChunkState :=
  if pyStrip sent = [] then st
  else if st.current.length + (pyStrip sent).length + 1 ≤ cs then
    (if st.current = [] then ChunkState.mk st.chunks (pyStrip sent)
     else ChunkState.mk st.chunks (st.current ++ [' '] ++ pyStrip sent))
  else if st.current ≠ [] then
    (if getOverlapText st.current ov = [] then
       ChunkState.mk (st.chunks ++ [st.current]) (pyStrip sent)
     else
       ChunkState.mk (st.chunks ++ [st.current])
         (getOverlapText st.current ov ++ [' '] ++ pyStrip sent))
  else ChunkState.mk st.chunks (pyStrip sent)

/-- _split_long_paragraph(paragraph, chunk_size, overlap). -/
def splitLongParagraph (para : Str) (cs ov : Nat) : List Str :=
  (if ((pairUp (reSplitSent para)).foldl (stepSent cs ov)
        (ChunkState.mk [] [])).current = [] then
    ((pairUp (reSplitSent para)).foldl (stepSent cs ov)
      (ChunkState.mk [] [])).chunks
  else
    ((pairUp (reSplitSent para)).foldl (stepSent cs ov)
      (ChunkState.mk [] [])).chunks ++
      [((pairUp (reSplitSent para)).foldl (stepSent cs ov)
        (ChunkState.mk [] [])).current])

/-- One iteration of the paragraph-packing loop of _chunk_text. -/
def stepPara (cs ov : Nat) (st : ChunkState) (para : Str) : ChunkState :=
  if pyStrip para = [] then st
  else if st.current.length + (pyStrip para).length + 2 ≤ cs then
    (if st.current = [] then ChunkState.mk st.chunks (pyStrip para)
     else ChunkState.mk st.chunks (st.current ++ ['\n', '\n'] ++ pyStrip para))
  else if st.current ≠ [] then
    (if getOverlapText st.current ov = [] then
       ChunkState.mk (st.chunks ++ [st.current]) (pyStrip para)
     else
       ChunkState.mk (st.chunks ++ [st.current])
         (getOverlapText st.current ov ++ ['\n', '\n'] ++ pyStrip para))
  else if cs < (pyStrip para).length then
    (match splitLongParagraph (pyStrip para) cs ov with
     | [] => st
     | sc => ChunkState.mk (st.chunks ++ sc.dropLast) ((sc.getLast?).getD []))
  else ChunkState.mk st.chunks (pyStrip para)

/-- The chunk list assembled by _chunk_text before the final minimum-length
filter (steps 1-3 of the algorithm). -/
def chunkTextRaw (text : Str) (cs ov : Nat) : List Str :=
  (if ((splitOn2NL text).foldl (stepPara cs ov) (ChunkState.mk [] [])).current
      = [] then
    ((splitOn2NL text).foldl (stepPara cs ov) (ChunkState.mk [] [])).chunks
  else
    ((splitOn2NL text).foldl (stepPara cs ov) (ChunkState.mk [] [])).chunks ++
      [((splitOn2NL text).foldl (stepPara cs ov) (ChunkState.mk [] [])).current])

/-- _chunk_text(text, chunk_size, overlap): assembled chunks, then the
post-processing filter dropping chunks shorter than 50 characters. -/
def chunkText (text : Str) (cs ov : Nat) : List Str :=
  (chunkTextRaw text cs ov).filter (fun c => decide (50 ≤ c.length))

/-- The non-blank paragraphs of an input text: split on blank lines, strip,
discard empty results (the units the Text Chunker packs). -/
def paragraphsOf (text : Str) : List Str :=
  ((splitOn2NL text).map pyStrip).filter (fun p => decide (p ≠ []))

/-- An indexed point of the vector store: identifier, embedding vector, and
the payload fields text and chunk_id. -/
structure QPoint where
  pid : Nat
  vector : List Int
  text : Str
  chunkId : Nat
deriving DecidableEq

/-- Outcome tag of load_documents. -/
inductive LoadResult where
  | notFound
  | skipped (nChunks : Nat)
  | loaded (nChunks : Nat)
deriving DecidableEq

/-- Observable effect of one load_documents call: outcome tag, the collection
point list after the call, and how many embedding-provider calls were made. -/
structure LoadOutcome where
  result : LoadResult
  points : List QPoint
  embedCalls : Nat
deriving DecidableEq

/-- load_documents(file_path), translated from the source with the external
collaborators abstracted: fileContent is the file system view (none when the
path does not exist), embed the OpenAI embedding call, freshId the uuid4
supply, points0 the collection content at call time.  Mirrors the source
order: existence check, read, chunk, non-empty-collection check, embedding
loop, one batch upsert. -/
def loadDocuments (fileContent : Option Str) (embed : Str → List Int)
    (freshId : Nat → Nat) (points0 : List QPoint) : LoadOutcome :=
  match fileContent with
  | none => LoadOutcome.mk LoadResult.notFound points0 0
  | some text =>
    if 0 < points0.length then
      LoadOutcome.mk (LoadResult.skipped (chunkText text 500 100).length)
        points0 0
    else
      LoadOutcome.mk (LoadResult.loaded (chunkText text 500 100).length)
        (points0 ++ (chunkText text 500 100).enum.map
          (fun pr => QPoint.mk (freshId pr.1) (embed pr.2) pr.2 pr.1))
        (chunkText text 500 100).length

/-- Return value of get_collection_stats; the success dictionary has no
error key and the failure dictionary has no vector_size key, modelled with
Option fields. -/
structure StatsResult where
  name : Str
  count : Nat
  persistDirectory : Str
  vectorSize : Option Nat
  err : Option Str
deriving DecidableEq

/-- get_collection_stats(), with the client.get_collection call abstracted as
an Except value: ok carries points_count, error carries the exception text. -/
def getCollectionStats (name persistDir : Str) (vectorSize : Nat)
    (getCollection : Except Str Nat) : StatsResult :=
  match getCollection with
  | Except.ok cnt => StatsResult.mk name cnt persistDir (some vectorSize) none
  | Except.error e => StatsResult.mk name 0 persistDir none (some e)

/-- Invariant carried through the paragraph-packing loop for claim C1: every
flushed chunk, and the running chunk when non-empty, has length at least 50. -/
def InvLen (st : ChunkState) : Prop :=
  (∀ c ∈ st.chunks, 50 ≤ c.length) ∧ (st.current ≠ [] → 50 ≤ st.current.length)

/-- A paragraph is placed in a packing state when it survives intact inside a
flushed chunk or inside the running chunk. -/
def Placed (st : ChunkState) (p : Str) : Prop :=
  (∃ c ∈ st.chunks, p <:+: c) ∨ p <:+: st.current

/-- A string is empty or ends with a non-whitespace character. -/
def EndsOK (l : Str) : Prop :=
  ∀ c, l.getLast? = some c → c.isWhitespace = false

/-- Invariant carried through both packing loops for claim C6. -/
def InvEnds (st : ChunkState) : Prop :=
  (∀ ch ∈ st.chunks, EndsOK ch) ∧ EndsOK st.current

/-- Concrete input for the C1 counterexample: one short paragraph. -/
def c1text : Str := "hello world".toList

/-- Concrete input for the C3 counterexample. -/
def c3text : Str := "ab".toList

/-- First paragraph of the C5 boundary case: 300 characters. -/
def c5para1 : Str := List.replicate 300 'A'

/-- Second paragraph of the C5 boundary case: 300 characters. -/
def c5para2 : Str := List.replicate 300 'B'

/-- The C5 input: two 300-character paragraphs joined by a blank line. -/
def c5text : Str := c5para1 ++ ['\n', '\n'] ++ c5para2

/-- The second chunk actually produced on the C5 input: the 100-character
overlap from the first chunk, a blank line, and the second paragraph. -/
def c5chunk2 : Str := List.replicate 100 'A' ++ ['\n', '\n'] ++ c5para2

/-- Concrete text for the C10 overlap_size = 0 conjunct. -/
def c10text : Str := "abc".toList

/-- Concrete witness paragraph of length 60 (inside the [50, cs-2] band). -/
def w1text : Str := List.replicate 60 'a'

/-- Concrete witness text for C3 and C10. -/
def w3text : Str := "one. two! three".toList

/-- Concrete witness text for C2 and C6. -/
def w6text : Str :=
  "this paragraph is longer than fifty characters in total.".toList

/-- Constant embedding oracle for the C7 witness. -/
def wEmbed : Str → List Int := fun _ => []

/-- Identity identifier supply for the C7 witness. -/
def wId : Nat → Nat := fun n => n

/-- One-point collection for the C7 witness. -/
def wPts : List QPoint := [QPoint.mk 0 [] [] 0]

/-! ### Suffix, infix and stripping lemmas -/

theorem dropSuf (n : Nat) (l : Str) : l.drop n <:+ l :=
  ⟨l.take n, List.take_append_drop n l⟩

theorem dropWhileSuf (p : Char → Bool) : ∀ (l : Str), l.dropWhile p <:+ l
  | [] => ⟨[], rfl⟩
  | a :: t => by
    rw [List.dropWhile_cons]
    split
    · exact (dropWhileSuf p t).trans ⟨[a], rfl⟩
    · exact List.suffix_refl _

theorem infRefl (l : Str) : l <:+: l := ⟨[], [], by simp⟩

theorem infOfSuf {a b : Str} (h : a <:+ b) : a <:+: b := by
  obtain ⟨u, hu⟩ := h
  exact ⟨u, [], by simp [hu]⟩

theorem infOfPre {a b : Str} (h : a <+: b) : a <:+: b := by
  obtain ⟨u, hu⟩ := h
  exact ⟨[], u, by simp [hu]⟩

theorem infTrans {a b c : Str} (h1 : a <:+: b) (h2 : b <:+: c) : a <:+: c := by
  obtain ⟨u, v, hu⟩ := h1
  obtain ⟨x, y, hx⟩ := h2
  refine ⟨x ++ u, v ++ y, ?_⟩
  rw [← hx, ← hu]
  simp [List.append_assoc]

theorem infAppL {a b : Str} (c : Str) (h : a <:+: b) : a <:+: b ++ c := by
  obtain ⟨u, v, hu⟩ := h
  exact ⟨u, v ++ c, by rw [← hu]; simp [List.append_assoc]⟩

theorem infNil {a : Str} (h : a <:+: ([] : Str)) : a = [] := by
  obtain ⟨u, v, hu⟩ := h
  rcases List.append_eq_nil.mp hu with ⟨h1, -⟩
  exact (List.append_eq_nil.mp h1).2

theorem infLen {a b : Str} (h : a <:+: b) : a.length ≤ b.length := by
  obtain ⟨u, v, hu⟩ := h
  rw [← hu]
  simp only [List.length_append]
  omega

theorem lstripSuf (s : Str) : lstrip s <:+ s := dropWhileSuf Char.isWhitespace s

theorem rstripPre (s : Str) : rstrip s <+: s := by
  obtain ⟨u, hu⟩ := dropWhileSuf Char.isWhitespace s.reverse
  refine ⟨u.reverse, ?_⟩
  have h2 := congrArg List.reverse hu
  simpa [rstrip, List.reverse_append] using h2

theorem pyStripInf (s : Str) : pyStrip s <:+: s :=
  infTrans (infOfSuf (lstripSuf (rstrip s))) (infOfPre (rstripPre s))

theorem pyStripLen (s : Str) : (pyStrip s).length ≤ s.length := infLen (pyStripInf s)

theorem endsOKNil : EndsOK [] := by
  intro c hc
  simp at hc

theorem sufLast {s t : Str} (h : s <:+ t) (hs : s ≠ []) : t.getLast? = s.getLast? := by
  obtain ⟨u, rfl⟩ := h
  rw [List.getLast?_append]
  obtain ⟨c, hc⟩ : ∃ c, s.getLast? = some c :=
    Option.isSome_iff_exists.mp (List.getLast?_isSome.mpr hs)
  rw [hc, Option.or_some]

theorem endsOKSuf {s t : Str} (ht : EndsOK t) (hsuf : s <:+ t) : EndsOK s := by
  intro c hc
  have hs : s ≠ [] := by
    intro h
    subst h
    simp at hc
  exact ht c (by rw [sufLast hsuf hs]; exact hc)

theorem endsOKApp (a : Str) {b : Str} (hb : EndsOK b) (hbne : b ≠ []) :
    EndsOK (a ++ b) := by
  intro c hc
  rw [sufLast ⟨a, rfl⟩ hbne] at hc
  exact hb c hc

theorem headDropWhile (p : Char → Bool) :
    ∀ (l : Str) (c : Char), (l.dropWhile p).head? = some c → p c = false
  | [], c, h => by simp [List.dropWhile] at h
  | a :: t, c, h => by
    rw [List.dropWhile_cons] at h
    by_cases hpa : p a = true
    · rw [if_pos hpa] at h
      exact headDropWhile p t c h
    · rw [if_neg hpa, List.head?_cons] at h
      injection h with h2
      subst h2
      simpa using hpa

theorem endsOKRstrip (s : Str) : EndsOK (rstrip s) := by
  intro c hc
  rw [rstrip, List.getLast?_reverse] at hc
  exact headDropWhile Char.isWhitespace s.reverse c hc

theorem pyStripEnds (s : Str) : EndsOK (pyStrip s) :=
  endsOKSuf (endsOKRstrip s) (lstripSuf (rstrip s))

theorem dropWhileEqSelf {p : Char → Bool} {l : Str} {c : Char}
    (hh : l.head? = some c) (hpc : p c = false) : l.dropWhile p = l := by
  cases l with
  | nil => rfl
  | cons a t =>
    rw [List.head?_cons] at hh
    injection hh with h2
    subst h2
    rw [List.dropWhile_cons, if_neg (by simp [hpc])]

theorem rstripEq {s t : Str} (ht : EndsOK t) (hsuf : s <:+ t) : rstrip s = s := by
  by_cases hnil : s = []
  · subst hnil
    rfl
  · obtain ⟨c, hc⟩ : ∃ c, s.getLast? = some c :=
      Option.isSome_iff_exists.mp (List.getLast?_isSome.mpr hnil)
    have hwc : c.isWhitespace = false := endsOKSuf ht hsuf c hc
    have hh : s.reverse.head? = some c := by
      rw [List.head?_reverse]
      exact hc
    show (s.reverse.dropWhile Char.isWhitespace).reverse = s
    rw [dropWhileEqSelf hh hwc, List.reverse_reverse]

theorem pyStripSuf {s t : Str} (ht : EndsOK t) (hsuf : s <:+ t) : pyStrip s <:+ t := by
  show lstrip (rstrip s) <:+ t
  rw [rstripEq ht hsuf]
  exact (lstripSuf s).trans hsuf

theorem pyWindowSuf (t : Str) (ov : Nat) : pyWindow t ov <:+ t := by
  unfold pyWindow
  split
  · exact List.suffix_refl t
  · exact dropSuf _ t

theorem getOverlapSuf {t : Str} (ht : EndsOK t) (ov : Nat) : getOverlapText t ov <:+ t := by
  unfold getOverlapText
  split
  · exact List.suffix_refl t
  · split
    · exact pyStripSuf ht ((dropSuf _ _).trans (pyWindowSuf t ov))
    · exact pyStripSuf ht (pyWindowSuf t ov)

/-! ### Chunks produced by the packing loops end in a non-whitespace character -/

theorem invEndsInit : InvEnds (ChunkState.mk [] []) :=
  ⟨fun ch hch => absurd hch (List.not_mem_nil ch), endsOKNil⟩

theorem stepSentEnds (cs ov : Nat) (st : ChunkState) (s : Str)
    (h : InvEnds st) : InvEnds (stepSent cs ov st s) := by
  unfold stepSent
  split_ifs with h1 h2 h3 h4 h5
  · exact h
  · exact ⟨h.1, pyStripEnds s⟩
  · exact ⟨h.1, endsOKApp _ (pyStripEnds s) h1⟩
  · refine ⟨?_, pyStripEnds s⟩
    intro ch hch
    rcases List.mem_append.mp hch with hch | hch
    · exact h.1 ch hch
    · rw [List.mem_singleton] at hch
      subst hch
      exact h.2
  · refine ⟨?_, endsOKApp _ (pyStripEnds s) h1⟩
    intro ch hch
    rcases List.mem_append.mp hch with hch | hch
    · exact h.1 ch hch
    · rw [List.mem_singleton] at hch
      subst hch
      exact h.2
  · exact ⟨h.1, pyStripEnds s⟩

theorem foldSentEnds (cs ov : Nat) : ∀ (l : List Str) (st : ChunkState),
    InvEnds st → InvEnds (l.foldl (stepSent cs ov) st)
  | [], _, h => h
  | s :: l, st, h => foldSentEnds cs ov l _ (stepSentEnds cs ov st s h)

theorem splitLongEnds (para : Str) (cs ov : Nat) :
    ∀ c ∈ splitLongParagraph para cs ov, EndsOK c := by
  intro c hc
  have hI := foldSentEnds cs ov (pairUp (reSplitSent para))
    (ChunkState.mk [] []) invEndsInit
  unfold splitLongParagraph at hc
  split at hc
  · exact hI.1 c hc
  · rcases List.mem_append.mp hc with hc | hc
    · exact hI.1 c hc
    · rw [List.mem_singleton] at hc
      subst hc
      exact hI.2

theorem stepParaEnds (cs ov : Nat) (st : ChunkState) (q : Str)
    (h : InvEnds st) : InvEnds (stepPara cs ov st q) := by
  unfold stepPara
  split_ifs with h1 h2 h3 h4 h5 h6
  · exact h
  · exact ⟨h.1, pyStripEnds q⟩
  · exact ⟨h.1, endsOKApp _ (pyStripEnds q) h1⟩
  · refine ⟨?_, pyStripEnds q⟩
    intro ch hch
    rcases List.mem_append.mp hch with hch | hch
    · exact h.1 ch hch
    · rw [List.mem_singleton] at hch
      subst hch
      exact h.2
  · refine ⟨?_, endsOKApp _ (pyStripEnds q) h1⟩
    intro ch hch
    rcases List.mem_append.mp hch with hch | hch
    · exact h.1 ch hch
    · rw [List.mem_singleton] at hch
      subst hch
      exact h.2
  · split
    · exact h
    · constructor
      · intro ch hch
        rcases List.mem_append.mp hch with hch | hch
        · exact h.1 ch hch
        · exact splitLongEnds (pyStrip q) cs ov ch
            ((List.dropLast_sublist _).subset hch)
      · show EndsOK ((splitLongParagraph (pyStrip q) cs ov).getLast?.getD [])
        cases hl : (splitLongParagraph (pyStrip q) cs ov).getLast? with
        | none => exact endsOKNil
        | some x =>
          exact splitLongEnds (pyStrip q) cs ov x
            (List.mem_of_mem_getLast? (Option.mem_def.mpr hl))
  · exact ⟨h.1, pyStripEnds q⟩

theorem foldParaEnds (cs ov : Nat) : ∀ (l : List Str) (st : ChunkState),
    InvEnds st → InvEnds (l.foldl (stepPara cs ov) st)
  | [], _, h => h
  | q :: l, st, h => foldParaEnds cs ov l _ (stepParaEnds cs ov st q h)

theorem chunkTextRawEnds (text : Str) (cs ov : Nat) :
    ∀ c ∈ chunkTextRaw text cs ov, EndsOK c := by
  intro c hc
  have hI := foldParaEnds cs ov (splitOn2NL text) (ChunkState.mk [] []) invEndsInit
  unfold chunkTextRaw at hc
  split at hc
  · exact hI.1 c hc
  · rcases List.mem_append.mp hc with hc | hc
    · exact hI.1 c hc
    · rw [List.mem_singleton] at hc
      subst hc
      exact hI.2

/-- C6: for every chunk produced by the paragraph-packing loop of _chunk_text
or by _split_long_paragraph, the overlap fragment _get_overlap_text would
prepend to the next chunk is empty or is a suffix of that chunk (the fragment
is already whitespace-trimmed by _get_overlap_text). -/
theorem c6_overlap_suffix (text para : Str) (cs ov : Nat) :
    (∀ c ∈ chunkTextRaw text cs ov,
      getOverlapText c ov = [] ∨ getOverlapText c ov <:+ c) ∧
    (∀ c ∈ splitLongParagraph para cs ov,
      getOverlapText c ov = [] ∨ getOverlapText c ov <:+ c) := by
  constructor
  · intro c hc
    exact Or.inr (getOverlapSuf (chunkTextRawEnds text cs ov c hc) ov)
  · intro c hc
    exact Or.inr (getOverlapSuf (splitLongEnds para cs ov c hc) ov)

/-- Witness for C6 at a concrete chunk of a concrete text. -/
theorem c6_overlap_suffix_witness :
    getOverlapText w6text 100 = [] ∨ getOverlapText w6text 100 <:+ w6text :=
  (c6_overlap_suffix w6text w6text 500 100).1 w6text (by decide)

/-! ### Claims about the minimum-length filter, the overlap extractor and the
gateway plumbing -/

/-- C2: every chunk returned by _chunk_text has length at least 50, and the
bound is enforced post-hoc, as a final filter over the fully assembled chunk
list. -/
theorem c2_min_length (text : Str) (cs ov : Nat) :
    (∀ c ∈ chunkText text cs ov, 50 ≤ c.length) ∧
    chunkText text cs ov =
      (chunkTextRaw text cs ov).filter (fun c => decide (50 ≤ c.length)) := by
  refine ⟨?_, rfl⟩
  intro c hc
  have h2 := (List.mem_filter.mp hc).2
  exact of_decide_eq_true h2

/-- Witness for C2 at a concrete text whose single chunk has 57 characters. -/
theorem c2_min_length_witness :
    50 ≤ w6text.length ∧
    chunkText w6text 500 100 =
      (chunkTextRaw w6text 500 100).filter (fun c => decide (50 ≤ c.length)) :=
  ⟨(c2_min_length w6text 500 100).1 w6text (by decide),
   (c2_min_length w6text 500 100).2⟩

/-- C3 counterexample: with overlap_size = 0 and the two-character text ab, the
source takes text[-0:], the whole text, as candidate window and returns ab,
while the window the claim describes (the trailing zero characters) yields the
empty string; the claim as stated is false at this input. -/
theorem c3_counterexample : getOverlapText c3text 0 ≠ getOverlapClaim c3text 0 := by
  decide

/-- C3 amended: for overlap_size at least 1, _get_overlap_text behaves exactly
as the claim describes: trailing overlap_size characters as candidate window,
each delimiter match updating the furthest-found boundary only when its
position exceeds the current best, substring after the boundary trimmed, the
trimmed raw window when no boundary was recorded, and the whole text when
len(text) <= overlap_size. -/
theorem c3_overlap_procedure (text : Str) (ov : Nat) (h : 1 ≤ ov) :
    getOverlapText text ov = getOverlapClaim text ov := by
  have h0 : ¬ (ov = 0) := by omega
  simp only [getOverlapText, getOverlapClaim, pyWindow, claimWindow, if_neg h0]

/-- Witness for the amended C3 at a concrete text and overlap size. -/
theorem c3_overlap_procedure_witness :
    getOverlapText w3text 4 = getOverlapClaim w3text 4 :=
  c3_overlap_procedure w3text 4 (by decide)

set_option maxRecDepth 100000 in
/-- C5 counterexample: on the two-paragraph input with 300 characters per
paragraph and chunk_size 500, overlap 100, _chunk_text does not return exactly
one chunk. -/
theorem c5_counterexample : ¬ ((chunkText c5text 500 100).length = 1) := by
  decide

set_option maxRecDepth 100000 in
/-- C5 amended: that input yields exactly two chunks: the first paragraph
alone, then the 100-character overlap fragment joined by a blank line to the
second paragraph (402 characters). -/
theorem c5_two_chunks : chunkText c5text 500 100 = [c5para1, c5chunk2] := by
  decide

/-- C7: when the target collection already holds at least one point,
load_documents skips ingestion: the outcome is the skipped report, the stored
points are unchanged, and no embedding call is made. -/
theorem c7_skip_nonempty (text : Str) (embed : Str → List Int)
    (freshId : Nat → Nat) (pts : List QPoint) (h : 0 < pts.length) :
    loadDocuments (some text) embed freshId pts =
      LoadOutcome.mk (LoadResult.skipped (chunkText text 500 100).length) pts 0 := by
  simp [loadDocuments, h]

/-- Witness for C7 on a one-point collection. -/
theorem c7_skip_nonempty_witness :
    loadDocuments (some c1text) wEmbed wId wPts =
      LoadOutcome.mk (LoadResult.skipped (chunkText c1text 500 100).length) wPts 0 :=
  c7_skip_nonempty c1text wEmbed wId wPts (by decide)

/-- C8: load_documents reports the missing-file error exactly when the file
does not exist; in that case nothing is embedded and the collection is
unchanged, and when the file exists the error is never reported. -/
theorem c8_missing_file (embed : Str → List Int) (freshId : Nat → Nat)
    (pts : List QPoint) (text : Str) :
    loadDocuments none embed freshId pts =
      LoadOutcome.mk LoadResult.notFound pts 0 ∧
    (loadDocuments (some text) embed freshId pts).result ≠ LoadResult.notFound := by
  constructor
  · rfl
  · by_cases hp : 0 < pts.length
    · simp [loadDocuments, hp]
    · simp [loadDocuments, hp]

/-- C9: get_collection_stats is total over the abstracted index access: on
success it reports name, point count, storage location and vector
dimensionality; on failure it reports count 0 and the error text instead of
raising. -/
theorem c9_stats_total (cname persistDir : Str) (vectorSize : Nat)
    (cnt : Nat) (e : Str) :
    getCollectionStats cname persistDir vectorSize (Except.ok cnt) =
      StatsResult.mk cname cnt persistDir (some vectorSize) none ∧
    getCollectionStats cname persistDir vectorSize (Except.error e) =
      StatsResult.mk cname 0 persistDir none (some e) :=
  ⟨rfl, rfl⟩

/-! ### Sentence splitting reassembles to the original paragraph -/

theorem consHeadJoin (c : Char) (L : List Str) :
    (consHead c L).flatten = c :: L.flatten := by
  cases L with
  | nil => simp [consHead]
  | cons h t => simp [consHead]

theorem reSplitSentJoin : ∀ (s : Str), (reSplitSent s).flatten = s
  | [] => by simp [reSplitSent]
  | c :: rest => by
    simp only [reSplitSent]
    by_cases hp : isPunct c
    · rw [if_pos hp]
      by_cases hw : (rest.dropWhile isPunct).takeWhile Char.isWhitespace = []
      · rw [if_pos hw, consHeadJoin, reSplitSentJoin rest]
      · rw [if_neg hw]
        simp only [List.flatten_cons]
        rw [reSplitSentJoin ((rest.dropWhile isPunct).dropWhile Char.isWhitespace)]
        simp [List.append_assoc, List.takeWhile_append_dropWhile]
    · rw [if_neg hp, consHeadJoin, reSplitSentJoin rest]
termination_by s => s.length
decreasing_by
  all_goals simp only [List.length_cons]
  all_goals
    first
      | omega
      | exact Nat.lt_of_le_of_lt
          (le_trans (List.dropWhile_sublist Char.isWhitespace).length_le
            (List.dropWhile_sublist isPunct).length_le)
          (Nat.lt_succ_self _)

theorem pairUpJoin : ∀ (L : List Str), (pairUp L).flatten = L.flatten
  | [] => rfl
  | [x] => by simp [pairUp]
  | x :: y :: rest => by
    simp only [pairUp, List.flatten_cons]
    rw [pairUpJoin rest]
    simp [List.append_assoc]

/-- C4: the sentence fragments assembled by the splitting step of
_split_long_paragraph (split on runs of [.!?] followed by whitespace, each
delimiter run re-attached to the preceding sentence, any trailing undelimited
fragment kept) concatenate, in order, exactly back to the original
paragraph. -/
theorem c4_sentence_reassembly (para : Str) :
    (pairUp (reSplitSent para)).flatten = para := by
  rw [pairUpJoin, reSplitSentJoin]

/-! ### Bounds on the overlap fragment -/

/-- C10: for every text and overlap_size at least 1, the overlap fragment has
length at most overlap_size and is a contiguous substring of the text
(surrounding whitespace possibly removed, so a substring of the window);
the precondition overlap_size >= 1 is required: at overlap_size = 0 the
candidate window text[-0:] is the entire text, so on the three-character text
abc the result is the whole text and the length bound fails. -/
theorem c10_overlap_window :
    (∀ (text : Str) (ov : Nat), 1 ≤ ov →
      (getOverlapText text ov).length ≤ ov ∧ getOverlapText text ov <:+: text) ∧
    (getOverlapText c10text 0 = c10text ∧ ¬ ((getOverlapText c10text 0).length ≤ 0)) := by
  constructor
  · intro text ov hov
    unfold getOverlapText
    by_cases hlen : text.length ≤ ov
    · rw [if_pos hlen]
      exact ⟨hlen, infRefl text⟩
    · rw [if_neg hlen]
      have h0 : ¬ (ov = 0) := by omega
      have hwlen : (pyWindow text ov).length = ov := by
        unfold pyWindow
        rw [if_neg h0, List.length_drop]
        omega
      have hwsuf : pyWindow text ov <:+ text := pyWindowSuf text ov
      by_cases hb : 0 < bestBoundary (pyWindow text ov)
      · rw [if_pos hb]
        constructor
        · calc (pyStrip ((pyWindow text ov).drop (bestBoundary (pyWindow text ov)))).length
              ≤ ((pyWindow text ov).drop (bestBoundary (pyWindow text ov))).length :=
                pyStripLen _
            _ ≤ (pyWindow text ov).length := by rw [List.length_drop]; omega
            _ = ov := hwlen
        · exact infTrans (pyStripInf _)
            (infTrans (infOfSuf (dropSuf _ _)) (infOfSuf hwsuf))
      · rw [if_neg hb]
        constructor
        · calc (pyStrip (pyWindow text ov)).length
              ≤ (pyWindow text ov).length := pyStripLen _
            _ = ov := hwlen
        · exact infTrans (pyStripInf _) (infOfSuf hwsuf)
  · constructor
    · decide
    · decide

/-- Witness for C10 at a concrete text and overlap size. -/
theorem c10_overlap_window_witness :
    (getOverlapText w3text 4).length ≤ 4 ∧ getOverlapText w3text 4 <:+: w3text :=
  c10_overlap_window.1 w3text 4 (by decide)

/-! ### Paragraph containment through the packing loop (claim C1) -/

theorem stepParaC1 (cs ov : Nat) (st : ChunkState) (q : Str)
    (hInv : InvLen st)
    (hq : pyStrip q ≠ [] → 50 ≤ (pyStrip q).length ∧ (pyStrip q).length + 2 ≤ cs) :
    InvLen (stepPara cs ov st q) ∧
    (pyStrip q ≠ [] → Placed (stepPara cs ov st q) (pyStrip q)) ∧
    (∀ p, p ≠ [] → Placed st p → Placed (stepPara cs ov st q) p) := by
  unfold stepPara
  split_ifs with h1 h2 h3 h4 h5 h6
  · exact ⟨hInv, fun hne => absurd h1 hne, fun p _ hp => hp⟩
  · refine ⟨⟨hInv.1, fun _ => (hq h1).1⟩, fun _ => Or.inr (infRefl _), ?_⟩
    intro p hp hpl
    rcases hpl with hc | hcur
    · exact Or.inl hc
    · rw [h3] at hcur
      exact absurd (infNil hcur) hp
  · refine ⟨⟨hInv.1, fun _ => ?_⟩, fun _ => Or.inr ?_, ?_⟩
    · have := hInv.2 h3
      simp only [List.length_append]
      omega
    · exact infOfSuf ⟨st.current ++ ['\n', '\n'], rfl⟩
    · intro p hp hpl
      rcases hpl with hc | hcur
      · exact Or.inl hc
      · exact Or.inr (infAppL _ (infAppL _ hcur))
  · refine ⟨⟨?_, fun _ => (hq h1).1⟩, fun _ => Or.inr (infRefl _), ?_⟩
    · intro c hc
      rcases List.mem_append.mp hc with hc | hc
      · exact hInv.1 c hc
      · rw [List.mem_singleton] at hc
        subst hc
        exact hInv.2 h4
    · intro p hp hpl
      rcases hpl with ⟨c, hc, hi⟩ | hcur
      · exact Or.inl ⟨c, List.mem_append.mpr (Or.inl hc), hi⟩
      · exact Or.inl ⟨st.current,
          List.mem_append.mpr (Or.inr (List.mem_singleton.mpr rfl)), hcur⟩
  · refine ⟨⟨?_, fun _ => ?_⟩,
      fun _ => Or.inr (infOfSuf ⟨getOverlapText st.current ov ++ ['\n', '\n'], rfl⟩), ?_⟩
    · intro c hc
      rcases List.mem_append.mp hc with hc | hc
      · exact hInv.1 c hc
      · rw [List.mem_singleton] at hc
        subst hc
        exact hInv.2 h4
    · have := (hq h1).1
      simp only [List.length_append]
      omega
    · intro p hp hpl
      rcases hpl with ⟨c, hc, hi⟩ | hcur
      · exact Or.inl ⟨c, List.mem_append.mpr (Or.inl hc), hi⟩
      · exact Or.inl ⟨st.current,
          List.mem_append.mpr (Or.inr (List.mem_singleton.mpr rfl)), hcur⟩
  · exfalso
    have hc0 : st.current = [] := not_not.mp h4
    have hle := (hq h1).2
    rw [hc0] at h2
    simp only [List.length_nil] at h2
    omega
  · exfalso
    have hc0 : st.current = [] := not_not.mp h4
    have hle := (hq h1).2
    rw [hc0] at h2
    simp only [List.length_nil] at h2
    omega

theorem foldParaC1 (cs ov : Nat) : ∀ (ps : List Str) (st : ChunkState),
    InvLen st →
    (∀ q ∈ ps, pyStrip q ≠ [] →
      50 ≤ (pyStrip q).length ∧ (pyStrip q).length + 2 ≤ cs) →
    InvLen (ps.foldl (stepPara cs ov) st) ∧
    (∀ q ∈ ps, pyStrip q ≠ [] →
      Placed (ps.foldl (stepPara cs ov) st) (pyStrip q)) ∧
    (∀ p, p ≠ [] → Placed st p → Placed (ps.foldl (stepPara cs ov) st) p) := by
  intro ps
  induction ps with
  | nil =>
    intro st hInv _
    exact ⟨hInv, fun q hq => absurd hq (List.not_mem_nil q), fun p _ hp => hp⟩
  | cons q ps ih =>
    intro st hInv hps
    have hstep := stepParaC1 cs ov st q hInv (hps q (List.mem_cons.mpr (Or.inl rfl)))
    have ihall := ih (stepPara cs ov st q) hstep.1
      (fun r hr => hps r (List.mem_cons.mpr (Or.inr hr)))
    rw [List.foldl_cons]
    refine ⟨ihall.1, ?_, ?_⟩
    · intro r hr hner
      rcases List.mem_cons.mp hr with hre | hr2
      · subst hre
        exact ihall.2.2 (pyStrip r) hner (hstep.2.1 hner)
      · exact ihall.2.1 r hr2 hner
    · intro p hp hpl
      exact ihall.2.2 p hp (hstep.2.2 p hp hpl)

/-- C1 amended: when every non-blank paragraph of the input has stripped
length between 50 and chunk_size - 2, every such paragraph survives intact as
a contiguous substring of some returned chunk, and no returned chunk is the
empty string.  (The original reconstruction claim fails in general: the final
filter of _chunk_text discards chunks shorter than 50 characters together with
the paragraphs they carry, see the counterexample.) -/
theorem c1_paragraph_containment (text : Str) (cs ov : Nat)
    (h : ∀ p ∈ paragraphsOf text, 50 ≤ p.length ∧ p.length + 2 ≤ cs) :
    (∀ p ∈ paragraphsOf text, ∃ c ∈ chunkText text cs ov, p <:+: c) ∧
    (∀ c ∈ chunkText text cs ov, c ≠ []) := by
  have hmem : ∀ q ∈ splitOn2NL text, pyStrip q ≠ [] →
      pyStrip q ∈ paragraphsOf text := by
    intro q hq hne
    unfold paragraphsOf
    rw [List.mem_filter]
    exact ⟨List.mem_map_of_mem pyStrip hq, decide_eq_true hne⟩
  have hq : ∀ q ∈ splitOn2NL text, pyStrip q ≠ [] →
      50 ≤ (pyStrip q).length ∧ (pyStrip q).length + 2 ≤ cs :=
    fun q hqm hne => h (pyStrip q) (hmem q hqm hne)
  have hInit : InvLen (ChunkState.mk [] []) :=
    ⟨fun c hc => absurd hc (List.not_mem_nil c), fun hne => absurd rfl hne⟩
  have hfold := foldParaC1 cs ov (splitOn2NL text) (ChunkState.mk [] []) hInit hq
  have hraw : chunkTextRaw text cs ov =
      (if ((splitOn2NL text).foldl (stepPara cs ov) (ChunkState.mk [] [])).current
          = [] then
        ((splitOn2NL text).foldl (stepPara cs ov) (ChunkState.mk [] [])).chunks
      else
        ((splitOn2NL text).foldl (stepPara cs ov) (ChunkState.mk [] [])).chunks ++
          [((splitOn2NL text).foldl (stepPara cs ov)
            (ChunkState.mk [] [])).current]) := rfl
  constructor
  · intro p hp
    have hp2 := hp
    unfold paragraphsOf at hp2
    rw [List.mem_filter, List.mem_map] at hp2
    obtain ⟨⟨q, hqm, hpq⟩, hpne2⟩ := hp2
    have hpne : p ≠ [] := of_decide_eq_true hpne2
    subst hpq
    have hpl := hfold.2.1 q hqm hpne
    rcases hpl with ⟨c, hc, hi⟩ | hcur
    · refine ⟨c, ?_, hi⟩
      have hcraw : c ∈ chunkTextRaw text cs ov := by
        rw [hraw]
        split
        · exact hc
        · exact List.mem_append.mpr (Or.inl hc)
      unfold chunkText
      rw [List.mem_filter]
      exact ⟨hcraw, decide_eq_true (hfold.1.1 c hc)⟩
    · have hcn : ((splitOn2NL text).foldl (stepPara cs ov)
          (ChunkState.mk [] [])).current ≠ [] := by
        intro h0
        rw [h0] at hcur
        exact hpne (infNil hcur)
      refine ⟨_, ?_, hcur⟩
      unfold chunkText
      rw [List.mem_filter]
      constructor
      · rw [hraw, if_neg hcn]
        exact List.mem_append.mpr (Or.inr (List.mem_singleton.mpr rfl))
      · exact decide_eq_true (hfold.1.2 hcn)
  · intro c hc
    unfold chunkText at hc
    rw [List.mem_filter] at hc
    have h50 : 50 ≤ c.length := of_decide_eq_true hc.2
    intro h0
    subst h0
    simp at h50

/-- Witness for the amended C1 on a 60-character single-paragraph text. -/
theorem c1_paragraph_containment_witness :
    (∀ p ∈ paragraphsOf w1text, ∃ c ∈ chunkText w1text 500 100, p <:+: c) ∧
    (∀ c ∈ chunkText w1text 500 100, c ≠ []) :=
  c1_paragraph_containment w1text 500 100 (by decide)

/-- C1 counterexample: on the single non-blank paragraph hello world (11
characters) the only assembled chunk is discarded by the 50-character filter,
so no returned chunk contains the paragraph and the concatenation of the
returned chunks cannot reconstruct it. -/
theorem c1_counterexample :
    ¬ (∀ p ∈ paragraphsOf c1text, ∃ c ∈ chunkText c1text 500 100, p <:+: c) := by
  intro h
  obtain ⟨c, hc, -⟩ := h c1text (by decide)
  have he : chunkText c1text 500 100 = [] := by decide
  rw [he] at hc
  exact List.not_mem_nil c hc
